import Mathlib

/-!
Shallow embedding of `src/virgilio.py` (class `Virgilio`): read-only analytical
queries over a corpus of 34 chant files.  The file system is modelled as a map
from a file name (as built by the source's f-string `Canto_<value>.txt`) to
the optional list of raw lines of that file (`none` = the file is missing or
unreadable, i.e. `open` raises).  Python
values passed as the `canto_number` argument are modelled by `PyVal`, so that
Python's `isinstance(x, int)` (under which `bool` is a subclass of `int`) can
be embedded faithfully.
-/

/-- A Python value usable as the `canto_number` argument. `bool` is a subclass
of `int` in Python, so `isinstance(True, int)` holds; the other constructors
stand for values that are not `int`-typed. -/
inductive PyVal where
  | vInt : Int → PyVal
  | vBool : Bool → PyVal
  | vStr : String → PyVal
  | vFloat : PyVal
  | vNone : PyVal
deriving DecidableEq, Repr

/-- Python `isinstance(x, int)`: true for `int` and for `bool` (a subclass). -/
def pyIsInstInt : PyVal → Bool
  | .vInt _ => true
  | .vBool _ => true
  | _ => false

/-- The integer value of an `int`-typed Python value (`True == 1`, `False == 0`). -/
def pyToInt : PyVal → Int
  | .vInt n => n
  | .vBool b => if b then 1 else 0
  | _ => 0

/-- Python f-string formatting of a chant-number value, as in
`f"Canto_\x7bcanto_number\x7d.txt"`: an `int` prints in decimal and a `bool`
prints as `True`/`False` (not as 1/0).  Only `int`-typed values can reach the
path construction, since validation rejects everything else first. -/
def pyFStr : PyVal → String
  | .vInt n => toString n
  | .vBool b => if b then "True" else "False"
  | .vStr s => s
  | .vFloat => ""
  | .vNone => "None"

/-- The file name `read_canto_lines` builds for the value `canto_number`
(the base-directory prefix of `os.path.join` is elided). -/
def cantoFileName (canto_number : PyVal) : String :=
  "Canto_" ++ pyFStr canto_number ++ ".txt"

/-- The file name of the integer chant `n`. -/
def cantoFile (n : Int) : String := "Canto_" ++ toString n ++ ".txt"

/-- The exceptions raised by `virgilio.py`: `TypeError`, the custom
`CantoNotFoundError`, and plain `Exception`. -/
inductive PyError where
  | typeError : String → PyError
  | cantoNotFoundError : String → PyError
  | exception : String → PyError
deriving DecidableEq, Repr

/-- The value returned by `read_canto_lines`: either the list of lines, or the
error-message string returned when opening the file fails
(`Union[List[str], str]` in the source). -/
inductive ReadResult where
  | lines : List String → ReadResult
  | errStr : String → ReadResult
deriving DecidableEq, Repr

/-- The ASCII whitespace characters removed by Python `str.strip()`. -/
def isPyWS (c : Char) : Bool :=
  c == ' ' || c == '\t' || c == '\n' || c == '\r' || c == '\x0b' || c == '\x0c'

/-- Python `str.strip()`: remove leading and trailing whitespace. -/
def pyStrip (s : String) : String :=
  ⟨((s.data.dropWhile isPyWS).reverse.dropWhile isPyWS).reverse⟩

/-- Predicate `isPre w s`: holds when the character list `w` is an initial segment of `s`
(Python `s.startswith(w)` at a position, used to embed `str.count` and `in`). -/
def isPre : List Char → List Char → Bool
  | [], _ => true
  | _ :: _, [] => false
  | a :: as, b :: bs => a == b && isPre as bs

/-- Non-overlapping left-to-right count of the pattern `w` inside a text:
after a match the remaining `|w| - 1` characters of the matched span are
skipped via the pending counter (the scan of CPython `str.count` for a
non-empty needle). -/
def countSubAux (w : List Char) : List Char → Nat → Nat
  | [], _ => 0
  | _ :: rest, k + 1 => countSubAux w rest k
  | c :: rest, 0 =>
    if isPre w (c :: rest) then 1 + countSubAux w rest (w.length - 1)
    else countSubAux w rest 0

/-- Python `s.count(w)`: non-overlapping occurrences of `w` in `s`, scanning
left to right; for the empty needle CPython returns `len(s) + 1`. -/
def pyCount (s w : String) : Nat :=
  match w.data with
  | [] => s.length + 1
  | _ :: _ => countSubAux w.data s.data 0

/-- Predicate `containsSub w s`: `w` occurs somewhere in `s`. -/
def containsSub (w : List Char) : List Char → Bool
  | [] => isPre w []
  | c :: rest => isPre w (c :: rest) || containsSub w rest

/-- Python `w in line` on strings: substring containment. -/
def pyContains (line w : String) : Bool := containsSub w.data line.data

/-- Python slice `l[:k]`: for `k ≥ 0` the first `k` elements, for `k < 0` all
but the last `|k|` elements (empty when `|k| ≥ len(l)`). -/
def pySliceTo (l : List String) (k : Int) : List String :=
  if 0 ≤ k then l.take k.toNat else l.take (l.length - k.natAbs)

/-- The file system: raw `readlines()` content per file name (as built by
`cantoFileName`), `none` when opening the file raises. -/
def FS := String → Option (List String)

/-- Embedding of `Virgilio.read_canto_lines`: validate the chant number (type, then range
1..34), then read the file; strip each line when `strip_lines`, apply the
`lines[:num_lines]` slice when `num_lines` is given; an open failure is
returned as an error-message string, not raised. -/
def read_canto_lines (fs : FS) (canto_number : PyVal) (strip_lines : Bool)
    (num_lines : Option Int) : Except PyError ReadResult :=
  if pyIsInstInt canto_number = false then
    .error (.typeError ("canto_number must be an integer"))
  else
    let n := pyToInt canto_number
    if ¬ (1 ≤ n ∧ n ≤ 34) then
      .error (.cantoNotFoundError ("canto_number must be between 1 and 34"))
    else
      let file_path := cantoFileName canto_number
      match fs file_path with
      | none => .ok (.errStr ("error while opening " ++ file_path))
      | some ls =>
        let ls1 := if strip_lines then ls.map pyStrip else ls
        let ls2 := match num_lines with
          | none => ls1
          | some k => pySliceTo ls1 k
        .ok (.lines ls2)

/-- Embedding of `Virgilio.count_verses`: length of the unstripped line list; an
error-message string from `read_canto_lines` is re-raised as `Exception`. -/
def count_verses (fs : FS) (canto_number : PyVal) : Except PyError Nat :=
  match read_canto_lines fs canto_number false none with
  | .error e => .error e
  | .ok (.errStr s) => .error (.exception ("Error reading chant " ++ pyFStr canto_number ++ ": " ++ s))
  | .ok (.lines ls) => .ok ls.length

/-- Embedding of `Virgilio.count_tercets`: `count_verses // 3`. -/
def count_tercets (fs : FS) (canto_number : PyVal) : Except PyError Nat :=
  match count_verses fs canto_number with
  | .error e => .error e
  | .ok v => .ok (v / 3)

/-- Embedding of `Virgilio.count_word`: `"".join(unstripped lines).count(word)`. -/
def count_word (fs : FS) (canto_number : PyVal) (word : String) : Except PyError Nat :=
  match read_canto_lines fs canto_number false none with
  | .error e => .error e
  | .ok (.errStr s) => .error (.exception ("Error reading chant " ++ pyFStr canto_number ++ ": " ++ s))
  | .ok (.lines ls) => .ok (pyCount (String.join ls) word)

/-- Embedding of `Virgilio.get_verse_with_word`: first stripped line containing `word`,
`None` when no line does. -/
def get_verse_with_word (fs : FS) (canto_number : PyVal) (word : String) :
    Except PyError (Option String) :=
  match read_canto_lines fs canto_number true none with
  | .error e => .error e
  | .ok (.errStr s) => .error (.exception ("Error reading chant " ++ pyFStr canto_number ++ ": " ++ s))
  | .ok (.lines ls) => .ok (ls.find? (fun line => pyContains line word))

/-- Embedding of `Virgilio.get_verses_with_word`: the stripped lines containing `word`;
the Python `[...] or None` idiom turns the empty list into `None`. -/
def get_verses_with_word (fs : FS) (canto_number : PyVal) (word : String) :
    Except PyError (Option (List String)) :=
  match read_canto_lines fs canto_number true none with
  | .error e => .error e
  | .ok (.errStr s) => .error (.exception ("Error reading chant " ++ pyFStr canto_number ++ ": " ++ s))
  | .ok (.lines ls) =>
    let r := ls.filter (fun line => pyContains line word)
    .ok (if r = [] then none else some r)

/-- One comparison step of Python `max(..., key=len)`: the current best is
replaced only when the new element's key is strictly greater, so the first
of several maxima is kept. -/
def maxStep (acc : Option String) (v : String) : Option String :=
  match acc with
  | none => some v
  | some b => if v.length > b.length then some v else some b

/-- Python `max(lines, key=len, default=None)`: first element of maximum
length (`max` keeps the earlier element on ties), `none` on the empty list. -/
def pyMaxByLen (l : List String) : Option String :=
  l.foldl maxStep none

/-- Embedding of `Virgilio.get_longest_verse`: `max(stripped lines, key=len, default=None)`. -/
def get_longest_verse (fs : FS) (canto_number : PyVal) : Except PyError (Option String) :=
  match read_canto_lines fs canto_number true none with
  | .error e => .error e
  | .ok (.errStr s) => .error (.exception ("Error reading chant " ++ pyFStr canto_number ++ ": " ++ s))
  | .ok (.lines ls) => .ok (pyMaxByLen ls)

/-- Embedding of `Virgilio.count_words`: per-word `str.count` over `"".join(stripped
lines)`, returned as an ordered word→count mapping (the JSON report side
effect is outside the query semantics). -/
def count_words (fs : FS) (canto_number : PyVal) (words : List String) :
    Except PyError (List (String × Nat)) :=
  match read_canto_lines fs canto_number true none with
  | .error e => .error e
  | .ok (.errStr s) => .error (.exception ("Error reading chant " ++ pyFStr canto_number ++ ": " ++ s))
  | .ok (.lines ls) =>
    let full_text := String.join ls
    .ok (words.map (fun w => (w, pyCount full_text w)))

/-- The scan order `range(1, 35)` of the corpus-wide loops. -/
def cantoRange : List Int := (List.range 34).map (fun i => (i : Int) + 1)

/-- The result dictionary of `get_longest_canto`. -/
structure LongestCanto where
  canto_number : Option Int
  canto_len : Nat
deriving DecidableEq, Repr

/-- One iteration of the `get_longest_canto` loop: a chant whose read raises
is skipped (logged); otherwise the best is replaced only on a strictly
greater verse count. -/
def longestStep (fs : FS) (acc : LongestCanto) (n : Int) : LongestCanto :=
  match count_verses fs (.vInt n) with
  | .error _ => acc
  | .ok v => if v > acc.canto_len then ⟨some n, v⟩ else acc

/-- Embedding of `Virgilio.get_longest_canto`: scan chants 1..34 keeping the first chant
with a strictly greatest verse count, starting from `{None, 0}`. -/
def get_longest_canto (fs : FS) : LongestCanto :=
  cantoRange.foldl (longestStep fs) ⟨none, 0⟩

/-- Embedding of `Virgilio.count_hell_verses`: sum of `count_verses` over chants 1..34,
chants whose read raises are skipped (logged). -/
def count_hell_verses (fs : FS) : Nat :=
  cantoRange.foldl
    (fun acc n =>
      match count_verses fs (.vInt n) with
      | .error _ => acc
      | .ok v => acc + v)
    0

/-- The `total_verses_len` accumulation loop of `get_hell_verse_mean_len`:
sum of stripped-line lengths over chants 1..34, chants whose read raises
are skipped (logged). -/
def hell_len_sum (fs : FS) : Nat :=
  cantoRange.foldl
    (fun acc n =>
      match read_canto_lines fs (.vInt n) true none with
      | .ok (.lines ls) => acc + (ls.map String.length).sum
      | _ => acc)
    0

/-- Embedding of `Virgilio.get_hell_verse_mean_len`: `0.0` when the corpus has zero
verses, otherwise the sum of stripped-line lengths over the readable chants
divided by the total verse count (true division modelled over `ℚ`). -/
def get_hell_verse_mean_len (fs : FS) : Rat :=
  let total := count_hell_verses fs
  if total = 0 then 0
  else (hell_len_sum fs : Rat) / (total : Rat)

/-- The verse count a corpus-wide loop observes for chant `n`: the
`count_verses` value, with a raising chant contributing nothing (`0`). -/
def chantCount (fs : FS) (n : Int) : Nat :=
  match count_verses fs (.vInt n) with
  | .ok v => v
  | .error _ => 0

/-- The stripped-length sum a corpus-wide loop observes for chant `n`, with a
raising chant contributing nothing (`0`). -/
def chantLenSum (fs : FS) (n : Int) : Nat :=
  match read_canto_lines fs (.vInt n) true none with
  | .ok (.lines ls) => (ls.map String.length).sum
  | _ => 0

/-- The pure comparison step of the `get_longest_canto` loop, parametrised by
the per-chant count function `g`. -/
def lcStep (g : Int → Nat) (acc : LongestCanto) (n : Int) : LongestCanto :=
  if g n > acc.canto_len then ⟨some n, g n⟩ else acc

/-- Corpus in which every chant file is missing. -/
def fsNone : FS := fun _ => none

/-- Corpus in which only `Canto_1.txt` exists, holding two raw lines whose
stripped concatenation (`"abba"`) contains `"bb"` while the raw
concatenation does not. -/
def fsBB : FS := fun f => if f = "Canto_1.txt" then some ["ab \n", " ba\n"] else none

/-- Corpus in which only `Canto_1.txt` exists, holding four raw lines with a
unique longest stripped verse. -/
def fsLong : FS := fun f =>
  if f = "Canto_1.txt" then some ["ab\n", "cde\n", "xyz\n", "q\n"] else none

/-- Corpus in which `Canto_2.txt` is missing, `Canto_1.txt` has two lines and
every other chant file has one line. -/
def fsSkip : FS := fun f =>
  if f = "Canto_2.txt" then none
  else if f = "Canto_1.txt" then some ["a\n", "b\n"] else some ["x\n"]

/-- Corpus in which every chant file exists: `Canto_1.txt` has three lines
and the others are empty. -/
def fsFull : FS := fun f =>
  if f = "Canto_1.txt" then some ["aa \n", "b\n", "cc\n"] else some []

/-- Corpus in which `Canto_1.txt` exists but `Canto_True.txt` does not. -/
def fsC9 : FS := fun f => if f = "Canto_1.txt" then some ["verse\n"] else none

/-- Corpus in which only `Canto_True.txt` exists. -/
def fsTrue : FS := fun f => if f = "Canto_True.txt" then some ["vero\n"] else none

lemma read_canto_lines_ok (fs : FS) (n : Int) (b : Bool) (h1 : 1 ≤ n) (h2 : n ≤ 34)
    (L : List String) (hL : fs (cantoFile n) = some L) :
    read_canto_lines fs (.vInt n) b none = .ok (.lines (if b then L.map pyStrip else L)) := by
  have hL2 : fs ("Canto_" ++ toString n ++ ".txt") = some L := hL
  simp [read_canto_lines, pyIsInstInt, pyToInt, cantoFileName, pyFStr, hL2, h1, h2]

lemma read_canto_lines_none (fs : FS) (n : Int) (b : Bool) (k : Option Int)
    (h1 : 1 ≤ n) (h2 : n ≤ 34) (hL : fs (cantoFile n) = none) :
    read_canto_lines fs (.vInt n) b k =
      .ok (.errStr ("error while opening " ++ cantoFile n)) := by
  have hL2 : fs ("Canto_" ++ toString n ++ ".txt") = none := hL
  simp [read_canto_lines, pyIsInstInt, pyToInt, cantoFileName, pyFStr, cantoFile, hL2, h1, h2]

lemma count_verses_ok (fs : FS) (n : Int) (h1 : 1 ≤ n) (h2 : n ≤ 34)
    (L : List String) (hL : fs (cantoFile n) = some L) :
    count_verses fs (.vInt n) = .ok L.length := by
  simp [count_verses, read_canto_lines_ok fs n false h1 h2 L hL]

lemma chantCount_of_some (fs : FS) (n : Int) (h1 : 1 ≤ n) (h2 : n ≤ 34)
    (L : List String) (hL : fs (cantoFile n) = some L) : chantCount fs n = L.length := by
  simp [chantCount, count_verses_ok fs n h1 h2 L hL]

lemma chantCount_none (fs : FS) (n : Int) (hL : fs (cantoFile n) = none) : chantCount fs n = 0 := by
  by_cases hr : 1 ≤ n ∧ n ≤ 34
  · simp [chantCount, count_verses, read_canto_lines_none fs n false none hr.1 hr.2 hL]
  · simp [chantCount, count_verses, read_canto_lines, pyIsInstInt, pyToInt, hr]

/-- C5: for every valid chant number with a readable file, `count_tercets`
is `count_verses` floor-divided by 3, with no handling of an incomplete final
tercet. -/
theorem C5_tercets_floor_div (fs : FS) (n : Int) (h1 : 1 ≤ n) (h2 : n ≤ 34)
    (L : List String) (hL : fs (cantoFile n) = some L) :
    count_verses fs (.vInt n) = .ok L.length ∧
    count_tercets fs (.vInt n) = .ok (L.length / 3) := by
  have hv := count_verses_ok fs n h1 h2 L hL
  exact ⟨hv, by simp [count_tercets, hv]⟩

/-- C5 witness: chant 1 of `fsLong` has 4 verses, hence 1 tercet. -/
theorem C5_tercets_floor_div_witness :
    count_verses fsLong (.vInt 1) = .ok 4 ∧ count_tercets fsLong (.vInt 1) = .ok 1 :=
  C5_tercets_floor_div fsLong 1 (by decide) (by decide) _ rfl

/-- C9 counterexample: on `fsC9`, where `Canto_1.txt` exists but
`Canto_True.txt` does not, the input `True` yields the open-failure message
for `Canto_True.txt` (the f-string formats the value `True` as the text
`True`), while the chant number 1 yields the verses of `Canto_1.txt`; the
two results differ, so `True` does not read `Canto_1.txt`. -/
theorem C9_counterexample :
    read_canto_lines fsC9 (.vBool true) false none =
      .ok (.errStr ("error while opening Canto_True.txt")) ∧
    read_canto_lines fsC9 (.vInt 1) false none = .ok (.lines ["verse\n"]) ∧
    ReadResult.errStr ("error while opening Canto_True.txt") ≠
      ReadResult.lines ["verse\n"] :=
  ⟨rfl, rfl, by decide⟩

/-- C9 (amended): Python booleans pass the `isinstance(canto_number, int)`
check of `read_canto_lines` (for any corpus, i.e. independent of any file
access): `True` also passes the range check (`True == 1`) and proceeds
without any failure signal to open `Canto_True.txt` — a file distinct from
`Canto_1.txt`, because the f-string formats the boolean itself — behaving
exactly like a chant-1 read over the content stored under `Canto_True.txt`;
`False` (value 0, hence out of range) raises `CantoNotFoundError`, not
`TypeError`. -/
theorem C9_bool_canto_number :
    (∀ (fs : FS) (b : Bool) (k : Option Int) (L : List String),
       fs ("Canto_True.txt") = some L →
         read_canto_lines fs (.vBool true) b k =
           read_canto_lines (fun _ => some L) (.vInt 1) b k) ∧
    (∀ (fs : FS) (b : Bool) (k : Option Int),
       fs ("Canto_True.txt") = none →
         read_canto_lines fs (.vBool true) b k =
           .ok (.errStr ("error while opening Canto_True.txt"))) ∧
    cantoFileName (.vBool true) = "Canto_True.txt" ∧
    cantoFileName (.vBool true) ≠ cantoFile 1 ∧
    (∀ (fs : FS) (b : Bool) (k : Option Int),
       read_canto_lines fs (.vBool false) b k =
         .error (.cantoNotFoundError ("canto_number must be between 1 and 34"))) ∧
    pyIsInstInt (.vBool true) = true ∧ pyIsInstInt (.vBool false) = true := by
  refine ⟨fun fs b k L hL => ?_, fun fs b k hL => ?_, rfl, by decide,
    fun fs b k => ?_, rfl, rfl⟩
  · simp [read_canto_lines, cantoFileName, pyFStr, pyIsInstInt, pyToInt, hL]
  · simp [read_canto_lines, cantoFileName, pyFStr, pyIsInstInt, pyToInt, hL]
  · simp [read_canto_lines, pyIsInstInt, pyToInt]

/-- C9 witness: with only `Canto_True.txt` present, `True` reads that file
exactly as chant 1 would read its content; with every file missing, `True`
yields the `Canto_True.txt` open-failure message. -/
theorem C9_bool_canto_number_witness :
    read_canto_lines fsTrue (.vBool true) false none =
      read_canto_lines (fun _ => some ["vero\n"]) (.vInt 1) false none ∧
    read_canto_lines fsNone (.vBool true) false none =
      .ok (.errStr ("error while opening Canto_True.txt")) := by
  constructor
  · exact C9_bool_canto_number.1 fsTrue false none ["vero\n"] rfl
  · exact C9_bool_canto_number.2.1 fsNone false none rfl

/-- C10: for a valid readable chant and a negative `num_lines`, the
`lines[:num_lines]` slice keeps all verses except the last `min(|k|, v)`
(Python negative-slice semantics), and the call succeeds. -/
theorem C10_negative_limit (fs : FS) (n : Int) (h1 : 1 ≤ n) (h2 : n ≤ 34)
    (L : List String) (hL : fs (cantoFile n) = some L) (b : Bool) (k : Int) (hk : k < 0) :
    read_canto_lines fs (.vInt n) b (some k) =
      .ok (.lines ((if b then L.map pyStrip else L).take (L.length - min k.natAbs L.length))) := by
  have hlen : (if b then L.map pyStrip else L).length = L.length := by
    cases b <;> simp
  have htake : L.length - min k.natAbs L.length = L.length - k.natAbs := by omega
  have hL2 : fs ("Canto_" ++ toString n ++ ".txt") = some L := hL
  simp only [read_canto_lines, pyIsInstInt, pyToInt, cantoFileName, pyFStr, hL2, h1, h2,
    and_self, not_true_eq_false, if_false, Bool.false_eq_true, if_true]
  simp [pySliceTo, not_le.mpr hk, hlen, htake, h1, h2]

/-- C10 witness: `fsLong` chant 1 with `num_lines = -3` keeps only the first
of its 4 raw lines. -/
theorem C10_negative_limit_witness :
    read_canto_lines fsLong (.vInt 1) false (some (-3)) = .ok (.lines ["ab\n"]) := by
  have h := C10_negative_limit fsLong 1 (by decide) (by decide) _ rfl false (-3) (by decide)
  rw [h]
  rfl

lemma read_canto_lines_badtype (fs : FS) (v : PyVal) (hv : pyIsInstInt v = false)
    (b : Bool) (k : Option Int) :
    read_canto_lines fs v b k = .error (.typeError ("canto_number must be an integer")) := by
  simp [read_canto_lines, hv]

lemma read_canto_lines_badrange (fs : FS) (n : Int) (hn : ¬(1 ≤ n ∧ n ≤ 34))
    (b : Bool) (k : Option Int) :
    read_canto_lines fs (.vInt n) b k =
      .error (.cantoNotFoundError ("canto_number must be between 1 and 34")) := by
  simp [read_canto_lines, pyIsInstInt, pyToInt, hn]

/-- C2: every single-chant operation validates the chant number before any
file access (the corpus `fs` is universally quantified, so no file content
can influence the outcome): a non-`int`-typed value raises `TypeError` and
an out-of-range integer raises `CantoNotFoundError`. -/
theorem C2_validation_before_io (fs : FS) (v : PyVal) (hv : pyIsInstInt v = false)
    (n : Int) (hn : ¬(1 ≤ n ∧ n ≤ 34)) (w : String) (ws : List String) :
    (read_canto_lines fs v false none = .error (.typeError ("canto_number must be an integer")) ∧
     count_verses fs v = .error (.typeError ("canto_number must be an integer")) ∧
     count_tercets fs v = .error (.typeError ("canto_number must be an integer")) ∧
     count_word fs v w = .error (.typeError ("canto_number must be an integer")) ∧
     get_verse_with_word fs v w = .error (.typeError ("canto_number must be an integer")) ∧
     get_verses_with_word fs v w = .error (.typeError ("canto_number must be an integer")) ∧
     get_longest_verse fs v = .error (.typeError ("canto_number must be an integer")) ∧
     count_words fs v ws = .error (.typeError ("canto_number must be an integer"))) ∧
    (read_canto_lines fs (.vInt n) false none =
       .error (.cantoNotFoundError ("canto_number must be between 1 and 34")) ∧
     count_verses fs (.vInt n) =
       .error (.cantoNotFoundError ("canto_number must be between 1 and 34")) ∧
     count_tercets fs (.vInt n) =
       .error (.cantoNotFoundError ("canto_number must be between 1 and 34")) ∧
     count_word fs (.vInt n) w =
       .error (.cantoNotFoundError ("canto_number must be between 1 and 34")) ∧
     get_verse_with_word fs (.vInt n) w =
       .error (.cantoNotFoundError ("canto_number must be between 1 and 34")) ∧
     get_verses_with_word fs (.vInt n) w =
       .error (.cantoNotFoundError ("canto_number must be between 1 and 34")) ∧
     get_longest_verse fs (.vInt n) =
       .error (.cantoNotFoundError ("canto_number must be between 1 and 34")) ∧
     count_words fs (.vInt n) ws =
       .error (.cantoNotFoundError ("canto_number must be between 1 and 34"))) := by
  have ht := read_canto_lines_badtype fs v hv
  have hr := read_canto_lines_badrange fs n hn
  constructor
  · exact ⟨ht false none,
      by simp [count_verses, ht],
      by simp [count_tercets, count_verses, ht],
      by simp [count_word, ht],
      by simp [get_verse_with_word, ht],
      by simp [get_verses_with_word, ht],
      by simp [get_longest_verse, ht],
      by simp [count_words, ht]⟩
  · exact ⟨hr false none,
      by simp [count_verses, hr],
      by simp [count_tercets, count_verses, hr],
      by simp [count_word, hr],
      by simp [get_verse_with_word, hr],
      by simp [get_verses_with_word, hr],
      by simp [get_longest_verse, hr],
      by simp [count_words, hr]⟩

/-- C2 witness: a string chant number raises `TypeError` and chant 35 raises
`CantoNotFoundError`, both on the all-missing corpus. -/
theorem C2_validation_before_io_witness :
    count_verses fsNone (.vStr ("x")) = .error (.typeError ("canto_number must be an integer")) ∧
    count_verses fsNone (.vInt 35) =
      .error (.cantoNotFoundError ("canto_number must be between 1 and 34")) := by
  have h := C2_validation_before_io fsNone (.vStr ("x")) (by decide) 35 (by decide) "a" []
  exact ⟨h.1.2.1, h.2.2.1⟩

/-- C1 counterexample: in `fsBB` the raw lines of chant 1 are
`["ab \n", " ba\n"]`; `count_word` joins them unstripped (count of `"bb"` is
0) while `count_words` joins them stripped to `"abba"` (count 1), so the two
operations do not agree on the unstripped-concatenation semantics. -/
theorem C1_counterexample :
    count_word fsBB (.vInt 1) "bb" = .ok 0 ∧
    count_words fsBB (.vInt 1) ["bb"] = .ok [("bb", 1)] ∧ (0 : Nat) ≠ 1 :=
  ⟨rfl, rfl, by decide⟩

/-- C1 (amended): `count_word` counts over the concatenation of the
unstripped verses, but `count_words` counts each requested word over the
concatenation of the **stripped** verses, so the two agree only when those
concatenations yield the same count. -/
theorem C1_word_count_semantics (fs : FS) (n : Int) (h1 : 1 ≤ n) (h2 : n ≤ 34)
    (L : List String) (hL : fs (cantoFile n) = some L) (ws : List String) (w : String) :
    count_words fs (.vInt n) ws =
      .ok (ws.map (fun u => (u, pyCount (String.join (L.map pyStrip)) u))) ∧
    count_word fs (.vInt n) w = .ok (pyCount (String.join L) w) := by
  constructor
  · simp [count_words, read_canto_lines_ok fs n true h1 h2 L hL]
  · simp [count_word, read_canto_lines_ok fs n false h1 h2 L hL]

/-- C1 witness: the amended semantics evaluated on `fsBB`. -/
theorem C1_word_count_semantics_witness :
    count_words fsBB (.vInt 1) ["bb"] = .ok [("bb", pyCount ("abba") ("bb"))] ∧
    count_word fsBB (.vInt 1) "bb" = .ok (pyCount ("ab \n ba\n") ("bb")) := by
  have h := C1_word_count_semantics fsBB 1 (by decide) (by decide) _ rfl ["bb"] ("bb")
  exact ⟨h.1.trans (by rfl), h.2.trans (by rfl)⟩

/-- C3: `get_verses_with_word` returns exactly the stripped verses containing
the word, as an order-preserving sublist of the stripped line list, and
returns `None` (not `[]`) precisely when no verse contains the word. -/
theorem C3_find_all_verses (fs : FS) (n : Int) (h1 : 1 ≤ n) (h2 : n ≤ 34)
    (L : List String) (hL : fs (cantoFile n) = some L) (w : String) :
    get_verses_with_word fs (.vInt n) w =
      .ok (if (L.map pyStrip).filter (fun line => pyContains line w) = [] then none
           else some ((L.map pyStrip).filter (fun line => pyContains line w))) ∧
    List.Sublist ((L.map pyStrip).filter (fun line => pyContains line w)) (L.map pyStrip) ∧
    (∀ line, line ∈ (L.map pyStrip).filter (fun line => pyContains line w) ↔
       line ∈ L.map pyStrip ∧ pyContains line w = true) ∧
    (get_verses_with_word fs (.vInt n) w = .ok none ↔
       ∀ line ∈ L.map pyStrip, pyContains line w = false) := by
  have heq : get_verses_with_word fs (.vInt n) w =
      .ok (if (L.map pyStrip).filter (fun line => pyContains line w) = [] then none
           else some ((L.map pyStrip).filter (fun line => pyContains line w))) := by
    simp [get_verses_with_word, read_canto_lines_ok fs n true h1 h2 L hL]
  refine ⟨heq, List.filter_sublist _, fun line => List.mem_filter, ?_⟩
  rw [heq]
  by_cases hnil : (L.map pyStrip).filter (fun line => pyContains line w) = []
  · have hforall : ∀ line ∈ L.map pyStrip, pyContains line w = false := by
      rw [List.filter_eq_nil_iff] at hnil
      exact fun line hl => Bool.eq_false_iff.mpr (hnil line hl)
    rw [if_pos hnil]
    exact ⟨fun _ => hforall, fun _ => rfl⟩
  · simp only [if_neg hnil]
    constructor
    · intro h
      cases h
    · intro hall
      exact absurd (List.filter_eq_nil_iff.mpr
        (fun a ha => by simp [hall a ha])) hnil

/-- C3 witness: in `fsBB`, searching chant 1 for `"b"` returns both stripped
verses, and searching for `"zz"` returns the `None` sentinel. -/
theorem C3_find_all_verses_witness :
    get_verses_with_word fsBB (.vInt 1) "b" = .ok (some ["ab", "ba"]) ∧
    get_verses_with_word fsBB (.vInt 1) "zz" = .ok none := by
  have hb := (C3_find_all_verses fsBB 1 (by decide) (by decide) _ rfl ("b")).1
  have hz := (C3_find_all_verses fsBB 1 (by decide) (by decide) _ rfl ("zz")).1
  exact ⟨hb.trans (by rfl), hz.trans (by rfl)⟩

lemma maxfold_go (l : List String) :
    ∀ b : String, ∃ v, l.foldl maxStep (some b) = some v ∧
      (∀ u ∈ l, u.length ≤ v.length) ∧ b.length ≤ v.length ∧
      (v = b ∨ ∃ t₁ t₂, l = t₁ ++ v :: t₂ ∧ b.length < v.length ∧
        ∀ u ∈ t₁, u.length < v.length) := by
  induction l with
  | nil =>
    intro b
    exact ⟨b, rfl, by simp, le_refl _, Or.inl rfl⟩
  | cons x xs ih =>
    intro b
    by_cases hx : x.length > b.length
    · have hstep : maxStep (some b) x = some x := by simp [maxStep, hx]
      obtain ⟨v, hv, hall, hxv, hcase⟩ := ih x
      refine ⟨v, by rw [List.foldl_cons, hstep]; exact hv, ?_, le_trans (le_of_lt hx) hxv, ?_⟩
      · intro u hu
        rcases List.mem_cons.mp hu with rfl | hu
        · exact hxv
        · exact hall u hu
      · right
        rcases hcase with rfl | ⟨t₁, t₂, hxs, hbv, ht₁⟩
        · exact ⟨[], xs, rfl, hx, by simp⟩
        · refine ⟨x :: t₁, t₂, by rw [hxs, List.cons_append], lt_trans hx hbv, ?_⟩
          intro u hu
          rcases List.mem_cons.mp hu with rfl | hu
          · exact hbv
          · exact ht₁ u hu
    · have hx' : x.length ≤ b.length := le_of_not_lt hx
      have hstep : maxStep (some b) x = some b := by simp [maxStep, hx]
      obtain ⟨v, hv, hall, hbv, hcase⟩ := ih b
      refine ⟨v, by rw [List.foldl_cons, hstep]; exact hv, ?_, hbv, ?_⟩
      · intro u hu
        rcases List.mem_cons.mp hu with rfl | hu
        · exact le_trans hx' hbv
        · exact hall u hu
      · rcases hcase with rfl | ⟨t₁, t₂, hxs, hbv', ht₁⟩
        · exact Or.inl rfl
        · refine Or.inr ⟨x :: t₁, t₂, by rw [hxs, List.cons_append], hbv', ?_⟩
          intro u hu
          rcases List.mem_cons.mp hu with rfl | hu
          · exact lt_of_le_of_lt hx' hbv'
          · exact ht₁ u hu

lemma pyMaxByLen_spec (l : List String) (hne : l ≠ []) :
    ∃ v t₁ t₂, pyMaxByLen l = some v ∧ l = t₁ ++ v :: t₂ ∧
      (∀ u ∈ t₁, u.length < v.length) ∧ ∀ u ∈ l, u.length ≤ v.length := by
  match l, hne with
  | x :: xs, _ =>
    have hfold : pyMaxByLen (x :: xs) = xs.foldl maxStep (some x) := rfl
    obtain ⟨v, hv, hall, hxv, hcase⟩ := maxfold_go xs x
    have hmem : ∀ u ∈ x :: xs, u.length ≤ v.length := by
      intro u hu
      rcases List.mem_cons.mp hu with rfl | hu
      · exact hxv
      · exact hall u hu
    rcases hcase with rfl | ⟨t₁, t₂, hxs, hxlt, ht₁⟩
    · exact ⟨v, [], xs, by rw [hfold, hv], rfl, by simp, hmem⟩
    · refine ⟨v, x :: t₁, t₂, by rw [hfold, hv], by rw [hxs, List.cons_append], ?_, hmem⟩
      intro u hu
      rcases List.mem_cons.mp hu with rfl | hu
      · exact hxlt
      · exact ht₁ u hu

/-- C4: `get_longest_verse` on a readable chant returns the `None` sentinel
exactly on an empty chant, and otherwise a stripped verse of maximal length
occurring after only strictly shorter verses (so the first of several
equally long verses is returned). -/
theorem C4_longest_verse (fs : FS) (n : Int) (h1 : 1 ≤ n) (h2 : n ≤ 34)
    (L : List String) (hL : fs (cantoFile n) = some L) :
    (L = [] → get_longest_verse fs (.vInt n) = .ok none) ∧
    (L ≠ [] → ∃ v t₁ t₂, get_longest_verse fs (.vInt n) = .ok (some v) ∧
       L.map pyStrip = t₁ ++ v :: t₂ ∧ (∀ u ∈ t₁, u.length < v.length) ∧
       ∀ u ∈ L.map pyStrip, u.length ≤ v.length) := by
  have heq : get_longest_verse fs (.vInt n) = .ok (pyMaxByLen (L.map pyStrip)) := by
    simp [get_longest_verse, read_canto_lines_ok fs n true h1 h2 L hL]
  constructor
  · rintro rfl
    rw [heq]
    rfl
  · intro hne
    have hne' : L.map pyStrip ≠ [] := by simpa using hne
    obtain ⟨v, t₁, t₂, hv, hdec, hlt, hle⟩ := pyMaxByLen_spec _ hne'
    exact ⟨v, t₁, t₂, by rw [heq, hv], hdec, hlt, hle⟩

/-- C4 witness: the empty chant 2 of `fsFull` yields `None`; chant 1 of
`fsLong` yields its first longest stripped verse `"cde"`. -/
theorem C4_longest_verse_witness :
    get_longest_verse fsFull (.vInt 2) = .ok none ∧
    get_longest_verse fsLong (.vInt 1) = .ok (some ("cde")) :=
  ⟨(C4_longest_verse fsFull 2 (by decide) (by decide) [] rfl).1 rfl, by rfl⟩

lemma canto_range_bounds : ∀ n ∈ cantoRange, 1 ≤ n ∧ n ≤ 34 := by decide

lemma cantoFile_inj_on_range :
    ∀ j ∈ cantoRange, ∀ m ∈ cantoRange, j ≠ m → cantoFile j ≠ cantoFile m := by decide

lemma chv_foldl (fs : FS) (l : List Int) :
    ∀ a : Nat,
      l.foldl
        (fun acc n =>
          match count_verses fs (.vInt n) with
          | .error _ => acc
          | .ok v => acc + v)
        a = a + (l.map (chantCount fs)).sum := by
  induction l with
  | nil =>
    intro a
    simp
  | cons x xs ih =>
    intro a
    rw [List.foldl_cons]
    have hstep :
        (match count_verses fs (.vInt x) with
         | .error _ => a
         | .ok v => a + v) = a + chantCount fs x := by
      unfold chantCount
      cases count_verses fs (.vInt x) <;> simp
    rw [hstep, ih]
    simp [Nat.add_assoc]

lemma count_hell_verses_eq (fs : FS) :
    count_hell_verses fs = (cantoRange.map (chantCount fs)).sum := by
  unfold count_hell_verses
  rw [chv_foldl]
  simp

lemma map_sum_filter_ne (g : Int → Nat) (m : Int) (l : List Int) (h0 : g m = 0) :
    (l.map g).sum = ((l.filter (fun j => j ≠ m)).map g).sum := by
  induction l with
  | nil => rfl
  | cons x xs ih =>
    by_cases hx : x = m
    · subst hx
      simp [h0, ih]
    · simp [hx, ih]

lemma chantCount_congr (fs₁ fs₂ : FS) (n : Int) (h : fs₁ (cantoFile n) = fs₂ (cantoFile n)) :
    chantCount fs₁ n = chantCount fs₂ n := by
  have h2 : fs₁ ("Canto_" ++ toString n ++ ".txt") = fs₂ ("Canto_" ++ toString n ++ ".txt") := h
  simp only [chantCount, count_verses, read_canto_lines, pyToInt, pyIsInstInt, cantoFileName,
    pyFStr, h2]

/-- C6: when every chant file is readable, `count_hell_verses` is the sum of
the per-chant verse counts over chants 1..34, each of which `count_verses`
reports successfully; moreover removing any single chant does not
short-circuit the loop: the result is the sum over the remaining chants. -/
theorem C6_total_verse_count (fs : FS) (h : ∀ n ∈ cantoRange, (fs (cantoFile n)).isSome = true) :
    count_hell_verses fs = (cantoRange.map (chantCount fs)).sum ∧
    (∀ n ∈ cantoRange, count_verses fs (.vInt n) = .ok (chantCount fs n)) ∧
    ∀ m ∈ cantoRange,
      count_hell_verses (fun f => if f = cantoFile m then none else fs f) =
        ((cantoRange.filter (fun j => j ≠ m)).map (chantCount fs)).sum := by
  refine ⟨count_hell_verses_eq fs, ?_, ?_⟩
  · intro n hn
    have hr := canto_range_bounds n hn
    obtain ⟨L, hL⟩ := Option.isSome_iff_exists.mp (h n hn)
    rw [chantCount_of_some fs n hr.1 hr.2 L hL]
    exact count_verses_ok fs n hr.1 hr.2 L hL
  · intro m hm
    have h0 : chantCount (fun f => if f = cantoFile m then none else fs f) m = 0 :=
      chantCount_none _ m (by simp)
    rw [count_hell_verses_eq, map_sum_filter_ne _ m cantoRange h0]
    congr 1
    apply List.map_congr_left
    intro j hj
    have hjmem : j ∈ cantoRange := (List.mem_filter.mp hj).1
    have hjm : j ≠ m := by
      have := (List.mem_filter.mp hj).2
      simpa using this
    have hfile : cantoFile j ≠ cantoFile m := cantoFile_inj_on_range j hjmem m hm hjm
    exact chantCount_congr _ fs j (by simp [hfile])

/-- C6 witness: on the fully readable corpus `fsFull` the loop total equals
the per-chant sum, and evaluates to 3. -/
theorem C6_total_verse_count_witness :
    count_hell_verses fsFull = (cantoRange.map (chantCount fsFull)).sum ∧
    count_hell_verses fsFull = 3 :=
  ⟨(C6_total_verse_count fsFull (by decide)).1, by rfl⟩

lemma hls_foldl (fs : FS) (l : List Int) :
    ∀ a : Nat,
      l.foldl
        (fun acc n =>
          match read_canto_lines fs (.vInt n) true none with
          | .ok (.lines ls) => acc + (ls.map String.length).sum
          | _ => acc)
        a = a + (l.map (chantLenSum fs)).sum := by
  induction l with
  | nil =>
    intro a
    simp
  | cons x xs ih =>
    intro a
    rw [List.foldl_cons]
    have hstep :
        (match read_canto_lines fs (.vInt x) true none with
         | .ok (.lines ls) => a + (ls.map String.length).sum
         | _ => a) = a + chantLenSum fs x := by
      unfold chantLenSum
      cases hr : read_canto_lines fs (.vInt x) true none with
      | error e => simp
      | ok r => cases r <;> simp
    rw [hstep, ih]
    simp [Nat.add_assoc]

lemma hell_len_sum_eq (fs : FS) :
    hell_len_sum fs = (cantoRange.map (chantLenSum fs)).sum := by
  unfold hell_len_sum
  rw [hls_foldl]
  simp

/-- C7: `get_hell_verse_mean_len` returns exactly 0 when the corpus has zero
total verses (the guard makes the division unreachable, so no
division-by-zero is possible), and otherwise returns the sum of
stripped-verse lengths over the readable chants divided by the total verse
count. -/
theorem C7_mean_verse_length (fs : FS) :
    (count_hell_verses fs = 0 → get_hell_verse_mean_len fs = 0) ∧
    (count_hell_verses fs ≠ 0 →
       get_hell_verse_mean_len fs =
         (hell_len_sum fs : Rat) / (count_hell_verses fs : Rat)) ∧
    hell_len_sum fs = (cantoRange.map (chantLenSum fs)).sum := by
  refine ⟨?_, ?_, hell_len_sum_eq fs⟩
  · intro h
    simp [get_hell_verse_mean_len, h]
  · intro h
    simp [get_hell_verse_mean_len, h]

/-- C7 witness: the all-missing corpus yields mean 0 without any division
error; the readable corpus `fsFull` (5 stripped characters over 3 verses)
yields 5/3. -/
theorem C7_mean_verse_length_witness :
    get_hell_verse_mean_len fsNone = 0 ∧ get_hell_verse_mean_len fsFull = 5 / 3 := by
  constructor
  · exact (C7_mean_verse_length fsNone).1 rfl
  · have h := (C7_mean_verse_length fsFull).2.1 (by decide)
    rw [h]
    have h1 : hell_len_sum fsFull = 5 := rfl
    have h2 : count_hell_verses fsFull = 3 := rfl
    rw [h1, h2]
    norm_num

lemma count_verses_of_none (fs : FS) (n : Int) (h1 : 1 ≤ n) (h2 : n ≤ 34)
    (hL : fs (cantoFile n) = none) :
    count_verses fs (.vInt n) =
      .error (.exception ("Error reading chant " ++ toString n ++ ": " ++
        ("error while opening " ++ cantoFile n))) := by
  simp [count_verses, read_canto_lines_none fs n false none h1 h2 hL, pyFStr]

lemma longestStep_eq (fs : FS) : longestStep fs = lcStep (chantCount fs) := by
  funext acc n
  unfold longestStep lcStep chantCount
  cases h : count_verses fs (.vInt n) with
  | error e => simp
  | ok v => rfl

lemma lcfold_go (g : Int → Nat) (l : List Int) :
    ∀ acc : LongestCanto,
      (∀ n ∈ l, g n ≤ (l.foldl (lcStep g) acc).canto_len) ∧
      acc.canto_len ≤ (l.foldl (lcStep g) acc).canto_len ∧
      (l.foldl (lcStep g) acc = acc ∨
        ∃ t₁ k t₂, l = t₁ ++ k :: t₂ ∧
          l.foldl (lcStep g) acc = ⟨some k, g k⟩ ∧ acc.canto_len < g k ∧
          ∀ j ∈ t₁, g j < g k) := by
  induction l with
  | nil =>
    intro acc
    exact ⟨by simp, le_refl _, Or.inl rfl⟩
  | cons x xs ih =>
    intro acc
    by_cases hx : g x > acc.canto_len
    · have hstep : lcStep g acc x = ⟨some x, g x⟩ := by simp [lcStep, hx]
      obtain ⟨hall, hle, hcase⟩ := ih ⟨some x, g x⟩
      rw [List.foldl_cons, hstep]
      refine ⟨?_, le_trans (le_of_lt hx) hle, ?_⟩
      · intro n hn
        rcases List.mem_cons.mp hn with rfl | hn
        · exact hle
        · exact hall n hn
      · right
        rcases hcase with heq | ⟨t₁, k, t₂, hxs, hr, hlt, ht₁⟩
        · exact ⟨[], x, xs, rfl, heq, hx, by simp⟩
        · refine ⟨x :: t₁, k, t₂, by rw [hxs, List.cons_append], hr,
            lt_trans hx hlt, ?_⟩
          intro j hj
          rcases List.mem_cons.mp hj with rfl | hj
          · exact hlt
          · exact ht₁ j hj
    · have hstep : lcStep g acc x = acc := by simp [lcStep, hx]
      have hx' : g x ≤ acc.canto_len := le_of_not_lt hx
      obtain ⟨hall, hle, hcase⟩ := ih acc
      rw [List.foldl_cons, hstep]
      refine ⟨?_, hle, ?_⟩
      · intro n hn
        rcases List.mem_cons.mp hn with rfl | hn
        · exact le_trans hx' hle
        · exact hall n hn
      · rcases hcase with heq | ⟨t₁, k, t₂, hxs, hr, hlt, ht₁⟩
        · exact Or.inl heq
        · refine Or.inr ⟨x :: t₁, k, t₂, by rw [hxs, List.cons_append], hr, hlt, ?_⟩
          intro j hj
          rcases List.mem_cons.mp hj with rfl | hj
          · exact lt_of_le_of_lt hx' hlt
          · exact ht₁ j hj

lemma foldl_skip {α : Type} (step : α → Int → α) (m : Int) (hid : ∀ a, step a m = a) :
    ∀ (l : List Int) (a : α), l.foldl step a = (l.filter (fun j => j ≠ m)).foldl step a := by
  intro l
  induction l with
  | nil =>
    intro a
    rfl
  | cons x xs ih =>
    intro a
    by_cases hx : x = m
    · subst hx
      rw [List.foldl_cons, hid, ih]
      have hf : (x :: xs).filter (fun j => j ≠ x) = xs.filter (fun j => j ≠ x) := by simp
      rw [hf]
    · have hf : (x :: xs).filter (fun j => j ≠ m) = x :: xs.filter (fun j => j ≠ m) := by
        simp [hx]
      rw [List.foldl_cons, ih (step a x), hf, List.foldl_cons]

/-- C8: with exactly one unreadable chant `m`, `get_longest_canto` equals the
same scan restricted to the readable chants (the failure is skipped, not
raised), its `canto_len` dominates every chant's count, and a reported chant
number is a readable chant attaining that count such that every chant
scanned before it has a strictly smaller count (first strictly-greater
update wins); `canto_number = None` only when every chant has count 0. -/
theorem C8_longest_canto_skips_failure (fs : FS) (m : Int) (hm : m ∈ cantoRange)
    (hnone : fs (cantoFile m) = none)
    (hrest : ∀ n ∈ cantoRange, n ≠ m → (fs (cantoFile n)).isSome = true) :
    get_longest_canto fs =
      (cantoRange.filter (fun j => j ≠ m)).foldl (longestStep fs) ⟨none, 0⟩ ∧
    (∀ n ∈ cantoRange, chantCount fs n ≤ (get_longest_canto fs).canto_len) ∧
    (∀ k, (get_longest_canto fs).canto_number = some k →
       k ∈ cantoRange ∧ k ≠ m ∧ chantCount fs k = (get_longest_canto fs).canto_len ∧
       ∀ j ∈ cantoRange, j < k → chantCount fs j < chantCount fs k) ∧
    ((get_longest_canto fs).canto_number = none → ∀ n ∈ cantoRange, chantCount fs n = 0) := by
  have hb := canto_range_bounds m hm
  have hskip : ∀ a, longestStep fs a m = a := by
    intro a
    unfold longestStep
    rw [count_verses_of_none fs m hb.1 hb.2 hnone]
  have hfold : get_longest_canto fs = cantoRange.foldl (lcStep (chantCount fs)) ⟨none, 0⟩ := by
    unfold get_longest_canto
    rw [longestStep_eq]
  obtain ⟨hall, _, hcase⟩ := lcfold_go (chantCount fs) cantoRange ⟨none, 0⟩
  have hm0 : chantCount fs m = 0 := chantCount_none fs m hnone
  refine ⟨?_, ?_, ?_, ?_⟩
  · unfold get_longest_canto
    exact foldl_skip (longestStep fs) m hskip cantoRange ⟨none, 0⟩
  · intro n hn
    rw [hfold]
    exact hall n hn
  · intro k hk
    rcases hcase with heq | ⟨t₁, k', t₂, hdecomp, hr, hpos, ht₁⟩
    · rw [hfold, heq] at hk
      cases hk
    · rw [hfold, hr] at hk
      have hkk : k' = k := by
        simpa using hk
      subst hkk
      have hkmem : k' ∈ cantoRange := by
        rw [hdecomp]
        simp
      refine ⟨hkmem, ?_, ?_, ?_⟩
      · intro hkm
        rw [hkm, hm0] at hr
        rw [hkm] at hpos
        omega
      · rw [hfold, hr]
      · intro j hj hjk
        have hsort : List.Sorted (· < ·) cantoRange := by decide
        rw [hdecomp] at hsort hj
        have hsplit := List.pairwise_append.mp hsort
        rcases List.mem_append.mp hj with hj1 | hj2
        · exact ht₁ j hj1
        · rcases List.mem_cons.mp hj2 with rfl | hj3
          · exact absurd hjk (lt_irrefl j)
          · have : k' < j := (List.sorted_cons.mp hsplit.2.1).1 j hj3
            omega
  · intro hnum n hn
    rcases hcase with heq | ⟨t₁, k', t₂, _, hr, _, _⟩
    · have hle0 := hall n hn
      rw [heq] at hle0
      exact Nat.le_zero.mp hle0
    · rw [hfold, hr] at hnum
      cases hnum

set_option maxRecDepth 4000 in
/-- C8 witness: in `fsSkip` chant 2 is missing; the scan skips it, and the
result equals the fold over the 33 readable chants (and is chant 1 with 2
verses). -/
theorem C8_longest_canto_skips_failure_witness :
    get_longest_canto fsSkip =
      (cantoRange.filter (fun j => j ≠ 2)).foldl (longestStep fsSkip) ⟨none, 0⟩ ∧
    get_longest_canto fsSkip = ⟨some 1, 2⟩ :=
  ⟨(C8_longest_canto_skips_failure fsSkip 2 (by decide) rfl (by decide)).1, by rfl⟩
